import Mathlib

/-!
Verification of the `stakerdb` tracked-transaction store (btc-staker).

The Go source keeps three top-level kvdb buckets:
  * `transactions`    : 8-byte big-endian index → marshalled `proto.TrackedTransaction`
  * `transactionIdx`  : 32-byte tx hash → 8-byte index, plus the reserved key
    `ntk` holding the next-available-index counter
  * `inputs`          : 36-byte outpoint key (hash ‖ big-endian index) → tx hash

We embed this shallowly: buckets become association lists whose list order is
the key order the cursor iterates in (keys are appended in strictly increasing
order by the store itself); big-endian `uint64` keys become `Nat` (big-endian
byte order agrees with numeric order, and the counter cannot realistically
wrap); 32-byte hashes and cryptographic values are opaque, modelled as `Nat`
with their external serialize/parse functions as total round-tripping codecs;
`uint16` parameters become `Fin 65536` (the Go type enforces the range);
`uint32` proto fields become `Nat` (the decoder range-checks them explicitly,
as the source does).  Fallible Go functions return `Except StoreError`.
-/

namespace Stakerdb

/-- An outpoint: a reference to a previous transaction output.  The Go key is
`outpoint.txHash ‖ bigendian(outpoint.index)` (36 bytes), injective in the
pair, so we key the inputs bucket by the pair itself. -/
structure OutPoint where
  hash : Nat
  index : Nat
deriving DecidableEq, Repr

/-- A transaction input; only its previous-output reference matters to the
store (`getInputData` reads `in.PreviousOutPoint`). -/
structure TxIn where
  previousOutPoint : OutPoint
deriving DecidableEq, Repr

/-- A Bitcoin transaction, abstracted: the store never inspects anything but
its inputs and its hash (`tx.TxHash()` is an opaque 32-byte digest, modelled
as an opaque `Nat` carried by the transaction). Wire serialization is the
identity on this abstraction. -/
structure MsgTx where
  txIns : List TxIn
  txHashVal : Nat
deriving DecidableEq, Repr

/-- A (schnorr signature, public key) pair, cryptographic values opaque. -/
structure PubKeySigPair where
  signature : Nat
  pubKey : Nat
deriving DecidableEq, Repr

/-- proto.CovenantSig: serialized signature and serialized x-only pubkey. -/
structure ProtoCovenantSig where
  covenantSig : Nat
  covenantSigBtcPk : Nat
deriving DecidableEq, Repr

/-- proto.BTCConfirmationInfo. -/
structure ProtoBTCConfirmationInfo where
  blockHash : Nat
  blockHeight : Nat
deriving DecidableEq, Repr

/-- proto.UnbondingTxData.  `unbondingTime` is `uint32` on the wire. -/
structure ProtoUnbondingTxData where
  unbondingTransaction : MsgTx
  unbondingTime : Nat
  covenantSignatures : List ProtoCovenantSig
  unbondingTxBtcConfirmationInfo : Option ProtoBTCConfirmationInfo
deriving DecidableEq, Repr

/-- proto.TrackedTransaction, the persisted primary record.  `stakingTime` is
`uint32` on the wire. -/
structure ProtoTrackedTransaction where
  trackedTransactionIdx : Nat
  stakingTransaction : MsgTx
  stakingOutputIdx : Nat
  stakerAddress : String
  stakingTime : Nat
  stakingTxBtcConfirmationInfo : Option ProtoBTCConfirmationInfo
  unbondingTxData : Option ProtoUnbondingTxData
  babylonBTCDelegationTxHash : String
deriving DecidableEq, Repr

/-- In-memory BtcConfirmationInfo. -/
structure BtcConfirmationInfo where
  height : Nat
  blockHash : Nat
deriving DecidableEq, Repr

/-- In-memory UnbondingStoreData; `unbondingTime` is `uint16` in memory. -/
structure UnbondingStoreData where
  unbondingTx : MsgTx
  unbondingTime : Fin 65536
  covenantSignatures : List PubKeySigPair
  unbondingTxConfirmationInfo : Option BtcConfirmationInfo
deriving DecidableEq, Repr

/-- In-memory StoredTransaction; `stakingTime` is `uint16` in memory. -/
structure StoredTransaction where
  storedTransactionIdx : Nat
  stakingTx : MsgTx
  stakingOutputIndex : Nat
  stakingTxConfirmationInfo : Option BtcConfirmationInfo
  stakingTime : Fin 65536
  stakerAddress : String
  unbondingTxData : Option UnbondingStoreData
  babylonBTCDelegationTxHash : String
deriving DecidableEq, Repr

/-- The closed error taxonomy of the store.  The Go code wraps the sentinel
errors `ErrDuplicateTransaction`, `ErrTransactionNotFound`,
`ErrCorruptedTransactionsDB`, `ErrUnbondingDataNotFound`,
`ErrInvalidUnbondingDataUpdate` (the spec's `UnbondingAlreadySet`) with
`fmt.Errorf(%w)`, preserving the identity; `nilUnbondingTx` and
`timeTooLarge` are the two plain `fmt.Errorf` failures of
`newInitialUnbondingTxData` and the time range checks. -/
inductive StoreError where
  | duplicateTransaction
  | transactionNotFound
  | corruptedTransactionsDB
  | unbondingDataNotFound
  | invalidUnbondingDataUpdate
  | nilUnbondingTx
  | timeTooLarge
deriving DecidableEq, Repr

/-- `StakingTxConfirmedOnBtc` (source line 112). -/
def StoredTransaction.StakingTxConfirmedOnBtc (t : StoredTransaction) : Bool :=
  t.stakingTxConfirmationInfo.isSome

/-- `UnbondingTxConfirmedOnBtc` (source line 117): false when unbonding data
is absent, else presence of the unbonding confirmation. -/
def StoredTransaction.UnbondingTxConfirmedOnBtc (t : StoredTransaction) : Bool :=
  match t.unbondingTxData with
  | none => false
  | some ud => ud.unbondingTxConfirmationInfo.isSome

/-- `covenantSigToProto` (source line 59). -/
def covenantSigToProto (c : PubKeySigPair) : ProtoCovenantSig :=
  { covenantSig := c.signature, covenantSigBtcPk := c.pubKey }

/-- `covenantSigsToProto` (source line 66). -/
def covenantSigsToProto (c : List PubKeySigPair) : List ProtoCovenantSig :=
  c.map covenantSigToProto

/-- `covenantSigFromProto` (source line 76): parses both values; the external
schnorr parsers are modelled as total inverses of the serializers. -/
def covenantSigFromProto (c : ProtoCovenantSig) : Except StoreError PubKeySigPair :=
  .ok { signature := c.covenantSig, pubKey := c.covenantSigBtcPk }

/-- `protoBtcConfirmationInfoToBtcConfirmationInfo` (source line 224):
nil maps to nil; `chainhash.NewHash` is modelled total on opaque hashes. -/
def protoBtcConfirmationInfoToBtcConfirmationInfo
    (ci : Option ProtoBTCConfirmationInfo) : Except StoreError (Option BtcConfirmationInfo) :=
  match ci with
  | none => .ok none
  | some c => .ok (some { height := c.blockHeight, blockHash := c.blockHash })

/-- The signature-decoding loop of `protoUnbondingDataToUnbondingStoreData`
(source lines 254-264): parse each proto signature in order, failing on the
first parse error. -/
def covenantSigsFromProto : List ProtoCovenantSig → Except StoreError (List PubKeySigPair)
  | [] => .ok []
  | c :: rest => do
    let covenantSig ← covenantSigFromProto c
    let sigs ← covenantSigsFromProto rest
    .ok (covenantSig :: sigs)

/-- `protoUnbondingDataToUnbondingStoreData` (source line 241): deserializes
the unbonding tx, range-checks `unbondingTime` back to 16 bits, parses every
covenant signature, converts the optional confirmation info. -/
def protoUnbondingDataToUnbondingStoreData
    (ud : ProtoUnbondingTxData) : Except StoreError UnbondingStoreData := do
  let unbondingTx := ud.unbondingTransaction
  if h : ud.unbondingTime > 65535 then
    .error .timeTooLarge
  else do
    let sigs ← covenantSigsFromProto ud.covenantSignatures
    let conf ← protoBtcConfirmationInfoToBtcConfirmationInfo ud.unbondingTxBtcConfirmationInfo
    .ok { unbondingTx := unbondingTx
          unbondingTime := ⟨ud.unbondingTime, by omega⟩
          covenantSignatures := sigs
          unbondingTxConfirmationInfo := conf }

/-- `protoTxToStoredTransaction` (source line 280): deserializes the staking
tx, decodes the optional unbonding data, the optional staking confirmation,
and range-checks `stakingTime` back to 16 bits. -/
def protoTxToStoredTransaction
    (ttx : ProtoTrackedTransaction) : Except StoreError StoredTransaction := do
  let stakingTx := ttx.stakingTransaction
  let utd ← match ttx.unbondingTxData with
    | none => pure none
    | some ud => do
        let u ← protoUnbondingDataToUnbondingStoreData ud
        pure (some u)
  let stakingTxConfgInfo ← protoBtcConfirmationInfoToBtcConfirmationInfo
    ttx.stakingTxBtcConfirmationInfo
  if h : ttx.stakingTime > 65535 then
    .error .timeTooLarge
  else
    .ok { storedTransactionIdx := ttx.trackedTransactionIdx
          stakingTx := stakingTx
          stakingOutputIndex := ttx.stakingOutputIdx
          stakingTxConfirmationInfo := stakingTxConfgInfo
          stakingTime := ⟨ttx.stakingTime, by omega⟩
          stakerAddress := ttx.stakerAddress
          unbondingTxData := utd
          babylonBTCDelegationTxHash := ttx.babylonBTCDelegationTxHash }

/-! ### The kvdb bucket model

A bucket is an association list in key order.  `aput` replaces in place when
the key exists (kvdb `Put` overwrite) and appends otherwise; the store only
ever appends with strictly increasing fresh keys, so list order stays key
order, which is the order the bucket cursor iterates in. -/

/-- Point lookup in a bucket. -/
def alookup {κ υ : Type} [DecidableEq κ] : List (κ × υ) → κ → Option υ
  | [], _ => none
  | (k1, v) :: rest, k => if k = k1 then some v else alookup rest k

/-- kvdb `Put`: overwrite in place, or append when the key is fresh. -/
def aput {κ υ : Type} [DecidableEq κ] : List (κ × υ) → κ → υ → List (κ × υ)
  | [], k, v => [(k, v)]
  | (k1, v1) :: rest, k, v =>
      if k = k1 then (k, v) :: rest else (k1, v1) :: aput rest k v

/-- The store's persisted state: the three buckets.  The `ntk` counter key
lives inside the `transactionIdx` bucket in Go; its 3-byte key cannot collide
with a 32-byte hash key, so it is a separate field here. -/
structure StoreState where
  txBucket : List (Nat × ProtoTrackedTransaction)
  txIndexBucket : List (Nat × Nat)
  numTx : Option Nat
  inputsBucket : List (OutPoint × Nat)
deriving DecidableEq, Repr

/-- The state right after `initBuckets`: three empty buckets, no counter. -/
def emptyStore : StoreState :=
  { txBucket := [], txIndexBucket := [], numTx := none, inputsBucket := [] }

/-- `nextTxKey` (source line 328): 1 when the counter key is absent. -/
def nextTxKey (s : StoreState) : Nat :=
  match s.numTx with
  | none => 1
  | some k => k

/-- `getNumTx` (source line 340). -/
def getNumTx (s : StoreState) : Nat :=
  nextTxKey s - 1

/-- `getTxByHash` (source line 348): hash-index lookup, then primary lookup;
a dangling index entry is `CorruptedStore`. -/
def getTxByHash (s : StoreState) (txHashV : Nat) :
    Except StoreError (ProtoTrackedTransaction × Nat) :=
  match alookup s.txIndexBucket txHashV with
  | none => .error .transactionNotFound
  | some txKey =>
    match alookup s.txBucket txKey with
    | none => .error .corruptedTransactionsDB
    | some maybeTx => .ok (maybeTx, txKey)

/-- `inputData` (source line 476). -/
structure InputData where
  inputs : List OutPoint
  txHash : Nat
deriving DecidableEq, Repr

/-- `getInputData` (source line 497): one outpoint key per input, plus the
transaction's own hash. -/
def getInputData (tx : MsgTx) : InputData :=
  { inputs := tx.txIns.map (fun i => i.previousOutPoint), txHash := tx.txHashVal }

/-- `saveTrackedTransaction` (source line 369): assigns the next key as the
record's index, puts the primary record, the hash-index entry, one inputs
entry per consumed outpoint, and advances the counter — all in the same
atomic write. -/
def saveTrackedTransaction (s : StoreState) (txHashV : Nat)
    (tt : ProtoTrackedTransaction) (id : Option InputData) : StoreState :=
  let k := nextTxKey s
  let tt1 := { tt with trackedTransactionIdx := k }
  { txBucket := aput s.txBucket k tt1
    txIndexBucket := aput s.txIndexBucket txHashV k
    numTx := some (k + 1)
    inputsBucket :=
      match id with
      | none => s.inputsBucket
      | some d => d.inputs.foldl (fun b input => aput b input txHashV) s.inputsBucket }

/-- `addTransactionInternal` (source line 424): duplicate-hash check first,
then the save; any error aborts the batch with no effect. -/
def addTransactionInternal (s : StoreState) (txHashV : Nat)
    (tt : ProtoTrackedTransaction) (id : Option InputData) :
    Except StoreError StoreState :=
  match alookup s.txIndexBucket txHashV with
  | some _ => .error .duplicateTransaction
  | none => .ok (saveTrackedTransaction s txHashV tt id)

/-- `newInitialUnbondingTxData` (source line 132): a nil unbonding tx is an
error; otherwise unbonding data with empty covenant signatures and no
confirmation. -/
def newInitialUnbondingTxData (unbondingTx : Option MsgTx)
    (unbondingTime : Fin 65536) : Except StoreError ProtoUnbondingTxData :=
  match unbondingTx with
  | none => .error .nilUnbondingTx
  | some utx =>
      .ok { unbondingTransaction := utx
            unbondingTime := unbondingTime.val
            covenantSignatures := []
            unbondingTxBtcConfirmationInfo := none }

/-- `AddTransactionSentToBabylon` (source line 516), the store's insert. -/
def AddTransactionSentToBabylon (s : StoreState) (btcTx : MsgTx)
    (stakingOutputIndex : Nat) (stakingTime : Fin 65536) (stakerAddress : String)
    (unbondingTx : Option MsgTx) (unbondingTime : Fin 65536)
    (btcDelTxHash : String) : Except StoreError StoreState := do
  let txHashBytes := btcTx.txHashVal
  let update ← newInitialUnbondingTxData unbondingTx unbondingTime
  let msg : ProtoTrackedTransaction :=
    { trackedTransactionIdx := 0
      stakingTransaction := btcTx
      stakingOutputIdx := stakingOutputIndex
      stakerAddress := stakerAddress
      stakingTime := stakingTime.val
      stakingTxBtcConfirmationInfo := none
      unbondingTxData := some update
      babylonBTCDelegationTxHash := btcDelTxHash }
  let inputData := getInputData btcTx
  addTransactionInternal s txHashBytes msg (some inputData)

/-- `setTxState` (source line 561): fetch by hash, run the transition on the
decoded record, re-persist at the same key; a transition error aborts the
batch with no mutation. -/
def setTxState (s : StoreState) (txHashV : Nat)
    (stateTransitionFn : ProtoTrackedTransaction → Except StoreError ProtoTrackedTransaction) :
    Except StoreError StoreState := do
  let (storedTx, txKey) ← getTxByHash s txHashV
  let storedTx1 ← stateTransitionFn storedTx
  .ok { s with txBucket := aput s.txBucket txKey storedTx1 }

/-- The `setTxConfirmed` closure (source line 617): sets the staking
confirmation, overwriting any prior value. -/
def setTxConfirmedFn (blockHashV blockHeight : Nat)
    (tx : ProtoTrackedTransaction) : Except StoreError ProtoTrackedTransaction :=
  let ci : ProtoBTCConfirmationInfo := { blockHash := blockHashV, blockHeight := blockHeight }
  .ok { tx with stakingTxBtcConfirmationInfo := some ci }

/-- The `setDelegationActiveOnBabylon` closure (source line 633): identical
body to `setTxConfirmedFn`. -/
def setDelegationActiveFn (blockHashV blockHeight : Nat)
    (tx : ProtoTrackedTransaction) : Except StoreError ProtoTrackedTransaction :=
  let ci : ProtoBTCConfirmationInfo := { blockHash := blockHashV, blockHeight := blockHeight }
  .ok { tx with stakingTxBtcConfirmationInfo := some ci }

/-- The `setUnbondingSignaturesReceived` closure (source line 648): requires
unbonding data present and its covenant signatures still empty. -/
def setUnbondingSignaturesReceivedFn (covenantSignatures : List PubKeySigPair)
    (tx : ProtoTrackedTransaction) : Except StoreError ProtoTrackedTransaction :=
  match tx.unbondingTxData with
  | none => .error .unbondingDataNotFound
  | some ud =>
      if ud.covenantSignatures.length > 0 then
        .error .invalidUnbondingDataUpdate
      else
        let ud1 := { ud with covenantSignatures := covenantSigsToProto covenantSignatures }
        .ok { tx with unbondingTxData := some ud1 }

/-- The `setUnbondingConfirmedOnBtc` closure (source line 668): requires
unbonding data present; sets its confirmation, overwriting any prior
value. -/
def setUnbondingConfirmedFn (blockHashV blockHeight : Nat)
    (tx : ProtoTrackedTransaction) : Except StoreError ProtoTrackedTransaction :=
  match tx.unbondingTxData with
  | none => .error .unbondingDataNotFound
  | some ud =>
      let ci : ProtoBTCConfirmationInfo := { blockHash := blockHashV, blockHeight := blockHeight }
      let ud1 := { ud with unbondingTxBtcConfirmationInfo := some ci }
      .ok { tx with unbondingTxData := some ud1 }

/-- `SetTxConfirmed` (source line 612). -/
def SetTxConfirmed (s : StoreState) (txHashV blockHashV blockHeight : Nat) :
    Except StoreError StoreState :=
  setTxState s txHashV (setTxConfirmedFn blockHashV blockHeight)

/-- `SetDelegationActiveOnBabylonAndConfirmedOnBtc` (source line 628). -/
def SetDelegationActiveOnBabylonAndConfirmedOnBtc
    (s : StoreState) (txHashV blockHashV blockHeight : Nat) :
    Except StoreError StoreState :=
  setTxState s txHashV (setDelegationActiveFn blockHashV blockHeight)

/-- `SetTxUnbondingSignaturesReceived` (source line 644). -/
def SetTxUnbondingSignaturesReceived (s : StoreState) (txHashV : Nat)
    (covenantSignatures : List PubKeySigPair) : Except StoreError StoreState :=
  setTxState s txHashV (setUnbondingSignaturesReceivedFn covenantSignatures)

/-- `SetTxUnbondingConfirmedOnBtc` (source line 663). -/
def SetTxUnbondingConfirmedOnBtc (s : StoreState) (txHashV blockHashV blockHeight : Nat) :
    Except StoreError StoreState :=
  setTxState s txHashV (setUnbondingConfirmedFn blockHashV blockHeight)

/-- `GetTransaction` (source line 683). -/
def GetTransaction (s : StoreState) (txHashV : Nat) :
    Except StoreError StoredTransaction := do
  let (maybeTx, _) ← getTxByHash s txHashV
  protoTxToStoredTransaction maybeTx

/-- `OutpointUsed` (source line 875): point lookup in the inputs bucket. -/
def OutpointUsed (s : StoreState) (op : OutPoint) : Bool :=
  (alookup s.inputsBucket op).isSome

/-- The `ForEach` loop of `ScanTrackedTransactions`: decode each primary
record in bucket (key) order, stopping at the first error. -/
def scanBucket : List (Nat × ProtoTrackedTransaction) →
    Except StoreError (List StoredTransaction)
  | [] => .ok []
  | p :: rest => do
    let t ← protoTxToStoredTransaction p.2
    let ts ← scanBucket rest
    .ok (t :: ts)

/-- `ScanTrackedTransactions` (source line 848): `ForEach` over the primary
bucket in key order, decoding each record; returns the visited records. -/
def ScanTrackedTransactions (s : StoreState) :
    Except StoreError (List StoredTransaction) :=
  scanBucket s.txBucket

/-- `kvdb.Batch` abort semantics: an error inside the atomic unit rolls back
every effect, so the effective state after a failed mutation is the state
before it. -/
def effectiveState (s : StoreState) (r : Except StoreError StoreState) : StoreState :=
  match r with
  | .ok s1 => s1
  | .error _ => s

/-! ### Query: withdrawable filter and pagination -/

/-- `isTimeLockExpired` (source line 740): exact `int64` arithmetic, no
overflow possible from `uint32`/`uint16` inputs, so plain `Int`. -/
def isTimeLockExpired (confirmationBlockHeight : Nat) (lockTime : Fin 65536)
    (currentBestBlockHeight : Nat) : Bool :=
  let nexBlockHeight : Int := (currentBestBlockHeight : Int) + 1
  let pastLock : Int := nexBlockHeight - (confirmationBlockHeight : Int) - (lockTime.val : Int)
  decide (pastLock ≥ 0)

/-- The reference (confirmation height, lock length) pair chosen by the
`switch` in `QueryStoredTransactions`'s accumulator (source lines 795-804):
staking unconfirmed → none; staking confirmed and unbonding not confirmed on
BTC (absent or unconfirmed) → the staking pair; both confirmed → the
unbonding pair. -/
def withdrawableReference (t : StoredTransaction) : Option (Nat × Fin 65536) :=
  match t.stakingTxConfirmationInfo with
  | none => none
  | some sci =>
    match t.unbondingTxData with
    | none => some (sci.height, t.stakingTime)
    | some ud =>
      match ud.unbondingTxConfirmationInfo with
      | none => some (sci.height, t.stakingTime)
      | some uci => some (uci.height, ud.unbondingTime)

/-- The withdrawable filter as the pure predicate of (record, best height)
applied by the query accumulator. -/
def withdrawableEligible (t : StoredTransaction) (currentBestBlockHeight : Nat) : Bool :=
  match withdrawableReference t with
  | none => false
  | some (confirmationHeight, scriptTimeLock) =>
      isTimeLockExpired confirmationHeight scriptTimeLock currentBestBlockHeight

/-- `StoredTransactionQuery` (source line 159); the filter field holds the
caller's best block height when present. -/
structure StoredTransactionQuery where
  indexOffset : Nat
  numMaxTransactions : Nat
  reversed : Bool
  withdrawableTransactionsFilter : Option Nat
deriving DecidableEq, Repr

/-- `StoredTransactionQueryResult` (source line 186). -/
structure StoredTransactionQueryResult where
  transactions : List StoredTransaction
  total : Nat
deriving DecidableEq, Repr

/-- Modelled from the spec: the cursor paginator (`newPaginator`/`query`) is
library code not under src/.  Per the spec's pagination engine: forward scans
begin at the (offset+1)-th smallest key and move forward; reverse scans begin
at the offset-th-from-largest key and move backward.  This gives the sequence
of records the scan visits, from a bucket whose list order is key order. -/
def paginatorSeq {α : Type} (entries : List α) (reversed : Bool) (offset : Nat) : List α :=
  if reversed then entries.reverse.drop offset else entries.drop offset

/-- Modelled from the spec: the paginator's accumulation loop, library code
not under src/.  The callback returns `some` when the record is accepted
(consuming limit budget) and `none` when it is skipped without consuming
budget; scanning stops at `limit` accepted records or end of keys, and a
callback error aborts the whole query. -/
def collectPage {α β : Type} :
    List α → Nat → (α → Except StoreError (Option β)) → Except StoreError (List β)
  | _, 0, _ => .ok []
  | [], _ + 1, _ => .ok []
  | x :: xs, limit + 1, f => do
    match ← f x with
    | none => collectPage xs (limit + 1) f
    | some b => do
        let rest ← collectPage xs limit f
        .ok (b :: rest)

/-- The accumulator closure of `QueryStoredTransactions` (source line 775):
decode the record; with no filter accept it; with the withdrawable filter
accept exactly the eligible records, skipping ineligible ones without
consuming budget. -/
def accumulateTransactions (filter : Option Nat) (protoTx : ProtoTrackedTransaction) :
    Except StoreError (Option StoredTransaction) := do
  let txFromDB ← protoTxToStoredTransaction protoTx
  match filter with
  | none => .ok (some txFromDB)
  | some best =>
      if withdrawableEligible txFromDB best then .ok (some txFromDB) else .ok none

/-- `QueryStoredTransactions` (source line 747): zero stored transactions
short-circuits to the zero result; otherwise total is the unfiltered count,
the paginator collects a page, and a reversed scan's page is flipped back to
ascending order. -/
def QueryStoredTransactions (s : StoreState) (q : StoredTransactionQuery) :
    Except StoreError StoredTransactionQueryResult :=
  let numTransactions := getNumTx s
  if numTransactions = 0 then
    .ok { transactions := [], total := 0 }
  else do
    let seq := paginatorSeq (s.txBucket.map Prod.snd) q.reversed q.indexOffset
    let txs ← collectPage seq q.numMaxTransactions
      (accumulateTransactions q.withdrawableTransactionsFilter)
    let txs1 := if q.reversed then txs.reverse else txs
    .ok { transactions := txs1, total := numTransactions }

/-! ### The persisted encoding of an in-memory record

The proto message is the stored form; the store's writers build it from the
in-memory data via `utils.SerializeBtcTransaction` (identity on our opaque
transactions), `covenantSigsToProto`, widening the 16-bit times to 32 bits,
and explicit presence/absence of the optional sub-messages — assembled here
into one encoder, the inverse direction of `protoTxToStoredTransaction`. -/

/-- Encoder for the optional confirmation info, as the setters build it. -/
def btcConfirmationInfoToProto :
    Option BtcConfirmationInfo → Option ProtoBTCConfirmationInfo
  | none => none
  | some ci => some { blockHash := ci.blockHash, blockHeight := ci.height }

/-- Encoder for unbonding data, inverse of
`protoUnbondingDataToUnbondingStoreData`. -/
def unbondingStoreDataToProto (u : UnbondingStoreData) : ProtoUnbondingTxData :=
  { unbondingTransaction := u.unbondingTx
    unbondingTime := u.unbondingTime.val
    covenantSignatures := covenantSigsToProto u.covenantSignatures
    unbondingTxBtcConfirmationInfo := btcConfirmationInfoToProto u.unbondingTxConfirmationInfo }

/-- Encoder for the full record, inverse of `protoTxToStoredTransaction`. -/
def storedTransactionToProto (t : StoredTransaction) : ProtoTrackedTransaction :=
  { trackedTransactionIdx := t.storedTransactionIdx
    stakingTransaction := t.stakingTx
    stakingOutputIdx := t.stakingOutputIndex
    stakerAddress := t.stakerAddress
    stakingTime := t.stakingTime.val
    stakingTxBtcConfirmationInfo := btcConfirmationInfoToProto t.stakingTxConfirmationInfo
    unbondingTxData := Option.map unbondingStoreDataToProto t.unbondingTxData
    babylonBTCDelegationTxHash := t.babylonBTCDelegationTxHash }

/-! ### Operation sequences -/

/-- The arguments to one `AddTransactionSentToBabylon` call. -/
structure InsertReq where
  btcTx : MsgTx
  stakingOutputIndex : Nat
  stakingTime : Fin 65536
  stakerAddress : String
  unbondingTx : Option MsgTx
  unbondingTime : Fin 65536
  btcDelTxHash : String
deriving DecidableEq, Repr

/-- Run one insert request. -/
def applyInsert (s : StoreState) (r : InsertReq) : Except StoreError StoreState :=
  AddTransactionSentToBabylon s r.btcTx r.stakingOutputIndex r.stakingTime
    r.stakerAddress r.unbondingTx r.unbondingTime r.btcDelTxHash

/-- Run a sequence of inserts, each of which must succeed. -/
def insertMany : StoreState → List InsertReq → Except StoreError StoreState
  | s, [] => .ok s
  | s, r :: rs => do
    let s1 ← applyInsert s r
    insertMany s1 rs

/-- One of the four named state transitions, with its arguments. -/
inductive TransitionOp where
  | txConfirmed (blockHashV blockHeight : Nat)
  | delegationActive (blockHashV blockHeight : Nat)
  | unbondingSignatures (sigs : List PubKeySigPair)
  | unbondingConfirmed (blockHashV blockHeight : Nat)
deriving DecidableEq, Repr

/-- Dispatch a transition at a transaction hash. -/
def applyTransition (s : StoreState) (txHashV : Nat) :
    TransitionOp → Except StoreError StoreState
  | .txConfirmed bh h => SetTxConfirmed s txHashV bh h
  | .delegationActive bh h => SetDelegationActiveOnBabylonAndConfirmedOnBtc s txHashV bh h
  | .unbondingSignatures sigs => SetTxUnbondingSignaturesReceived s txHashV sigs
  | .unbondingConfirmed bh h => SetTxUnbondingConfirmedOnBtc s txHashV bh h

/-- Any mutating store operation: an insert or a transition at a hash. -/
inductive StoreOp where
  | insert (r : InsertReq)
  | transition (txHashV : Nat) (t : TransitionOp)
deriving DecidableEq, Repr

/-- Run any mutating operation. -/
def applyOp (s : StoreState) : StoreOp → Except StoreError StoreState
  | .insert r => applyInsert s r
  | .transition h t => applyTransition s h t

/-! ### Helper lemmas: Except bind, bucket lookups -/

@[simp]
theorem except_bind_ok {α β ε : Type} (a : α) (f : α → Except ε β) :
    (Except.ok a >>= f) = f a := rfl

@[simp]
theorem except_bind_error {α β ε : Type} (e : ε) (f : α → Except ε β) :
    ((Except.error e : Except ε α) >>= f) = Except.error e := rfl

@[simp]
theorem except_pure {α ε : Type} (a : α) : (pure a : Except ε α) = Except.ok a := rfl

theorem alookup_aput_self {κ υ : Type} [DecidableEq κ] (l : List (κ × υ)) (k : κ) (v : υ) :
    alookup (aput l k v) k = some v := by
  induction l with
  | nil => simp [aput, alookup]
  | cons p rest ih =>
    by_cases h : k = p.1
    · simp [aput, alookup, h]
    · simp [aput, alookup, h, ih]

theorem alookup_aput_ne {κ υ : Type} [DecidableEq κ] (l : List (κ × υ)) (k k1 : κ) (v : υ)
    (h : k1 ≠ k) : alookup (aput l k v) k1 = alookup l k1 := by
  induction l with
  | nil => simp [aput, alookup, h]
  | cons p rest ih =>
    by_cases hk : k = p.1
    · subst hk
      simp [aput, alookup, h]
    · by_cases hk1 : k1 = p.1
      · simp [aput, alookup, hk, hk1]
      · simp [aput, alookup, hk, hk1, ih]

theorem aput_of_lookup_none {κ υ : Type} [DecidableEq κ] (l : List (κ × υ)) (k : κ) (v : υ)
    (h : alookup l k = none) : aput l k v = l ++ [(k, v)] := by
  induction l with
  | nil => simp [aput]
  | cons p rest ih =>
    simp only [alookup] at h
    by_cases hk : k = p.1
    · simp [hk] at h
    · simp only [hk, if_false] at h
      simp [aput, hk, ih h]

/-- Lookup-isSome through a fold of puts with a fixed value: present exactly
when the key was already present or is among the inserted keys. -/
theorem alookup_foldl_aput_isSome {κ υ : Type} [DecidableEq κ]
    (keys : List κ) (b0 : List (κ × υ)) (h : υ) (k : κ) :
    (alookup (keys.foldl (fun b i => aput b i h) b0) k).isSome =
      ((alookup b0 k).isSome || decide (k ∈ keys)) := by
  induction keys generalizing b0 with
  | nil => simp
  | cons key rest ih =>
    simp only [List.foldl_cons, ih, List.mem_cons]
    by_cases hk : k = key
    · subst hk
      simp [alookup_aput_self]
    · simp [alookup_aput_ne _ _ _ _ hk, hk]

/-! ### Codec round trip -/

theorem covenantSigFromProto_toProto (c : PubKeySigPair) :
    covenantSigFromProto (covenantSigToProto c) = .ok c := rfl

theorem covenantSigs_roundTrip (l : List PubKeySigPair) :
    covenantSigsFromProto (covenantSigsToProto l) = Except.ok l := by
  induction l with
  | nil => rfl
  | cons a rest ih =>
    simp [covenantSigsToProto, covenantSigsFromProto,
      covenantSigFromProto, covenantSigToProto] at *
    simp [ih]

theorem btcConfirmationInfo_roundTrip (o : Option BtcConfirmationInfo) :
    protoBtcConfirmationInfoToBtcConfirmationInfo (btcConfirmationInfoToProto o) = .ok o := by
  cases o <;> rfl

theorem unbondingStoreData_roundTrip (u : UnbondingStoreData) :
    protoUnbondingDataToUnbondingStoreData (unbondingStoreDataToProto u) = .ok u := by
  have hlt : ¬ (unbondingStoreDataToProto u).unbondingTime > 65535 := by
    simpa [unbondingStoreDataToProto] using Nat.lt_succ_iff.mp u.unbondingTime.isLt
  simp only [protoUnbondingDataToUnbondingStoreData, dif_neg hlt]
  simp [unbondingStoreDataToProto, covenantSigs_roundTrip, btcConfirmationInfo_roundTrip]

/-- Decode is a left inverse of encode, on every record. -/
theorem protoTx_roundTrip (t : StoredTransaction) :
    protoTxToStoredTransaction (storedTransactionToProto t) = .ok t := by
  have hlt : ¬ (storedTransactionToProto t).stakingTime > 65535 := by
    simpa [storedTransactionToProto] using Nat.lt_succ_iff.mp t.stakingTime.isLt
  cases hu : t.unbondingTxData with
  | none =>
    simp only [protoTxToStoredTransaction, storedTransactionToProto, hu, Option.map_none']
    simp [dif_neg, hlt, btcConfirmationInfo_roundTrip, ← hu]
    exact Nat.lt_succ_iff.mp t.stakingTime.isLt
  | some ud =>
    simp only [protoTxToStoredTransaction, storedTransactionToProto, hu, Option.map_some']
    simp [unbondingStoreData_roundTrip, dif_neg, hlt, btcConfirmationInfo_roundTrip, ← hu]
    exact Nat.lt_succ_iff.mp t.stakingTime.isLt

/-- C3: decoding re-creates every field of any valid in-memory record from
its persisted form, for every combination of presence of the optional
sub-records (staking confirmation, unbonding data, covenant signatures,
unbonding confirmation). -/
theorem storedTransaction_decode_encode (t : StoredTransaction) :
    protoTxToStoredTransaction (storedTransactionToProto t) = .ok t :=
  protoTx_roundTrip t

/-! ### Claim C1: duplicate inserts are rejected without effect -/

/-- C1: for every store state and every staking transaction whose hash is
already present in the hash index, the insert (both the internal entry point
and `AddTransactionSentToBabylon`, whose unbonding transaction is provided)
fails with `DuplicateTransaction`, and the effective state after the aborted
batch — counter, primary records, hash index and outpoint index — is exactly
the state before the call. -/
theorem insert_duplicate_rejected_unchanged (s : StoreState) (txHashV : Nat)
    (tt : ProtoTrackedTransaction) (id : Option InputData)
    (btcTx : MsgTx) (soi : Nat) (st : Fin 65536) (addr : String)
    (utx : MsgTx) (ut : Fin 65536) (bdh : String)
    (h : (alookup s.txIndexBucket txHashV).isSome = true)
    (hbtc : (alookup s.txIndexBucket btcTx.txHashVal).isSome = true) :
    addTransactionInternal s txHashV tt id = .error .duplicateTransaction ∧
    effectiveState s (addTransactionInternal s txHashV tt id) = s ∧
    AddTransactionSentToBabylon s btcTx soi st addr (some utx) ut bdh =
      .error .duplicateTransaction ∧
    effectiveState s (AddTransactionSentToBabylon s btcTx soi st addr (some utx) ut bdh) = s := by
  obtain ⟨k, hk⟩ := Option.isSome_iff_exists.mp h
  obtain ⟨k2, hk2⟩ := Option.isSome_iff_exists.mp hbtc
  refine ⟨?_, ?_, ?_, ?_⟩ <;>
    simp [addTransactionInternal, AddTransactionSentToBabylon,
      newInitialUnbondingTxData, effectiveState, hk, hk2]

/-- Witness for C1 at a concrete one-record store. -/
theorem insert_duplicate_rejected_unchanged_witness :
    addTransactionInternal
        { txBucket := [(1, storedTransactionToProto
            { storedTransactionIdx := 1
              stakingTx := { txIns := [], txHashVal := 11 }
              stakingOutputIndex := 0
              stakingTxConfirmationInfo := none
              stakingTime := 10
              stakerAddress := "addr"
              unbondingTxData := none
              babylonBTCDelegationTxHash := "del" })]
          txIndexBucket := [(11, 1)]
          numTx := some 2
          inputsBucket := [] }
        11
        (storedTransactionToProto
            { storedTransactionIdx := 0
              stakingTx := { txIns := [], txHashVal := 11 }
              stakingOutputIndex := 0
              stakingTxConfirmationInfo := none
              stakingTime := 10
              stakerAddress := "addr"
              unbondingTxData := none
              babylonBTCDelegationTxHash := "del" })
        none
      = .error .duplicateTransaction := by
  exact (insert_duplicate_rejected_unchanged _ 11 _ none
    { txIns := [], txHashVal := 11 } 0 10 "addr" { txIns := [], txHashVal := 99 } 20 "del"
    (by decide) (by decide)).1

/-! ### Claim C8: Get error taxonomy -/

/-- C8: `GetTransaction` fails with `TransactionNotFound` when the hash is
absent from the hash index, fails with `CorruptedStore` when the hash index
maps the hash to a primary key with no record, and returns the decoded record
when the hash is indexed and the record present and decodable. -/
theorem getTransaction_cases (s : StoreState) (txHashV : Nat) :
    (alookup s.txIndexBucket txHashV = none →
      GetTransaction s txHashV = .error .transactionNotFound) ∧
    (∀ k, alookup s.txIndexBucket txHashV = some k →
      alookup s.txBucket k = none →
      GetTransaction s txHashV = .error .corruptedTransactionsDB) ∧
    (∀ k ptx t, alookup s.txIndexBucket txHashV = some k →
      alookup s.txBucket k = some ptx →
      protoTxToStoredTransaction ptx = .ok t →
      GetTransaction s txHashV = .ok t) := by
  refine ⟨?_, ?_, ?_⟩
  · intro h
    simp [GetTransaction, getTxByHash, h]
  · intro k hk hb
    simp [GetTransaction, getTxByHash, hk, hb]
  · intro k ptx t hk hb hdec
    simp [GetTransaction, getTxByHash, hk, hb, hdec]

/-- A concrete record used to exercise the C8 branches. -/
def exRecordC8 : StoredTransaction :=
  { storedTransactionIdx := 1
    stakingTx := { txIns := [], txHashVal := 11 }
    stakingOutputIndex := 0
    stakingTxConfirmationInfo := none
    stakingTime := 10
    stakerAddress := "addr"
    unbondingTxData := none
    babylonBTCDelegationTxHash := "del" }

/-- A store whose hash index dangles at key 1: deliberately corrupted. -/
def exCorruptStoreC8 : StoreState :=
  { txBucket := [], txIndexBucket := [(11, 1)], numTx := some 2, inputsBucket := [] }

/-- A healthy one-record store holding `exRecordC8` under hash 11. -/
def exStoreC8 : StoreState :=
  { txBucket := [(1, storedTransactionToProto exRecordC8)]
    txIndexBucket := [(11, 1)]
    numTx := some 2
    inputsBucket := [] }

/-- Witness for C8: the three branches exercised on concrete stores,
including a deliberately corrupted one (dangling index entry). -/
theorem getTransaction_cases_witness :
    GetTransaction emptyStore 11 = .error .transactionNotFound ∧
    GetTransaction exCorruptStoreC8 11 = .error .corruptedTransactionsDB ∧
    GetTransaction exStoreC8 11 = .ok exRecordC8 := by
  refine ⟨(getTransaction_cases emptyStore 11).1 rfl,
    (getTransaction_cases exCorruptStoreC8 11).2.1 1 rfl rfl,
    (getTransaction_cases exStoreC8 11).2.2 1 (storedTransactionToProto exRecordC8)
      exRecordC8 rfl rfl rfl⟩

/-! ### Claim C5: the withdrawable filter -/

/-- C5: the withdrawable filter is a pure function of (record, best height):
a record with no staking confirmation is ineligible; with the unbonding
transaction absent or unconfirmed the reference pair is (staking confirmation
height, stakingTime); with the unbonding transaction confirmed it is
(unbonding confirmation height, unbondingTime); eligibility holds exactly
when `(bestHeight + 1) - confirmationHeight - lockLength ≥ 0` over the
integers — in particular a record confirmed at height 100 with lock 10 is
ineligible at best height 108 and eligible at 109. -/
theorem withdrawableEligible_spec :
    (∀ (t : StoredTransaction) (best : Nat),
      (t.stakingTxConfirmationInfo = none → withdrawableEligible t best = false) ∧
      (∀ sci, t.stakingTxConfirmationInfo = some sci →
        (t.UnbondingTxConfirmedOnBtc = false →
          (withdrawableEligible t best = true ↔
            (best : Int) + 1 - (sci.height : Int) - (t.stakingTime.val : Int) ≥ 0)) ∧
        (∀ ud uci, t.unbondingTxData = some ud →
          ud.unbondingTxConfirmationInfo = some uci →
          (withdrawableEligible t best = true ↔
            (best : Int) + 1 - (uci.height : Int) - (ud.unbondingTime.val : Int) ≥ 0)))) ∧
    (∀ (t : StoredTransaction) (sci : BtcConfirmationInfo),
      t.stakingTxConfirmationInfo = some sci → sci.height = 100 →
      t.stakingTime = 10 → t.UnbondingTxConfirmedOnBtc = false →
      withdrawableEligible t 108 = false ∧ withdrawableEligible t 109 = true) := by
  have key : ∀ (t : StoredTransaction) (best : Nat) (sci : BtcConfirmationInfo),
      t.stakingTxConfirmationInfo = some sci → t.UnbondingTxConfirmedOnBtc = false →
      withdrawableEligible t best =
        decide ((best : Int) + 1 - (sci.height : Int) - (t.stakingTime.val : Int) ≥ 0) := by
    intro t best sci hsci hunb
    cases hud : t.unbondingTxData with
    | none =>
      simp [withdrawableEligible, withdrawableReference, isTimeLockExpired, hsci, hud]
    | some ud =>
      have hunb1 : ud.unbondingTxConfirmationInfo.isSome = false := by
        simpa [StoredTransaction.UnbondingTxConfirmedOnBtc, hud] using hunb
      cases huci : ud.unbondingTxConfirmationInfo with
      | none =>
        simp [withdrawableEligible, withdrawableReference, isTimeLockExpired, hsci, hud, huci]
      | some uci => rw [huci] at hunb1; simp at hunb1
  constructor
  · intro t best
    refine ⟨?_, ?_⟩
    · intro h
      simp [withdrawableEligible, withdrawableReference, h]
    · intro sci hsci
      refine ⟨?_, ?_⟩
      · intro hunb
        rw [key t best sci hsci hunb]
        exact decide_eq_true_iff
      · intro ud uci hud huci
        simp [withdrawableEligible, withdrawableReference, isTimeLockExpired,
          hsci, hud, huci, decide_eq_true_iff]
  · intro t sci hsci h100 h10 hunb
    rw [key t 108 sci hsci hunb, key t 109 sci hsci hunb, h100, h10]
    constructor <;> decide

/-- Witness for C5 on a concrete record confirmed at 100 with lock 10, and a
concrete unbonding-confirmed record. -/
theorem withdrawableEligible_spec_witness :
    withdrawableEligible
      { storedTransactionIdx := 1
        stakingTx := { txIns := [], txHashVal := 11 }
        stakingOutputIndex := 0
        stakingTxConfirmationInfo := some { height := 100, blockHash := 5 }
        stakingTime := 10
        stakerAddress := "addr"
        unbondingTxData := none
        babylonBTCDelegationTxHash := "del" } 108 = false ∧
    withdrawableEligible
      { storedTransactionIdx := 1
        stakingTx := { txIns := [], txHashVal := 11 }
        stakingOutputIndex := 0
        stakingTxConfirmationInfo := some { height := 100, blockHash := 5 }
        stakingTime := 10
        stakerAddress := "addr"
        unbondingTxData := none
        babylonBTCDelegationTxHash := "del" } 109 = true := by
  exact withdrawableEligible_spec.2
    { storedTransactionIdx := 1
      stakingTx := { txIns := [], txHashVal := 11 }
      stakingOutputIndex := 0
      stakingTxConfirmationInfo := some { height := 100, blockHash := 5 }
      stakingTime := 10
      stakerAddress := "addr"
      unbondingTxData := none
      babylonBTCDelegationTxHash := "del" }
    { height := 100, blockHash := 5 } rfl rfl rfl rfl

/-! ### Claim C4: SetUnbondingSignaturesReceived transitions -/

/-- A concrete insert request whose transaction has hash 21; insertion gives
its record unbonding data with empty covenant signatures. -/
def exReqC4 : InsertReq :=
  { btcTx := { txIns := [], txHashVal := 21 }
    stakingOutputIndex := 0
    stakingTime := 10
    stakerAddress := "addr"
    unbondingTx := some { txIns := [], txHashVal := 1000 }
    unbondingTime := 20
    btcDelTxHash := "del" }

/-- The store after inserting `exReqC4` into the empty store. -/
def exStoreC4 : StoreState :=
  effectiveState emptyStore (applyInsert emptyStore exReqC4)

/-- `exStoreC4` after `SetTxUnbondingSignaturesReceived` with the EMPTY
signature list. -/
def exStoreC4b : StoreState :=
  effectiveState exStoreC4 (SetTxUnbondingSignaturesReceived exStoreC4 21 [])

/-- Whether an `Except` result is a success. -/
def exceptIsOk {ε α : Type} : Except ε α → Bool
  | .ok _ => true
  | .error _ => false

/-- Counterexample to C4 as stated: with the first signature list empty, the
first call succeeds and the second call also succeeds — it does not fail with
`UnbondingAlreadySet` — because the guard tests non-emptiness of the stored
collection, which an empty first list leaves empty. -/
theorem setUnbondingSigs_twice_empty_counterexample :
    exceptIsOk (SetTxUnbondingSignaturesReceived exStoreC4 21 []) = true ∧
    exceptIsOk (SetTxUnbondingSignaturesReceived exStoreC4b 21
        [{ signature := 7, pubKey := 8 }]) = true ∧
    SetTxUnbondingSignaturesReceived exStoreC4b 21 [{ signature := 7, pubKey := 8 }] ≠
      .error .invalidUnbondingDataUpdate := by
  refine ⟨rfl, rfl, fun hcontra => ?_⟩
  have h2 : exceptIsOk (SetTxUnbondingSignaturesReceived exStoreC4b 21
      [{ signature := 7, pubKey := 8 }]) = true := rfl
  rw [hcontra] at h2
  simp [exceptIsOk] at h2

/-- C4 (amended): `SetTxUnbondingSignaturesReceived` on a stored record with
no unbonding data fails with `UnbondingDataNotFound`; and on a stored record
with unbonding data whose covenant signatures are empty, for any NON-EMPTY
first list s1 and arbitrary second list s2, the first call succeeds and the
second fails with `UnbondingAlreadySet`, whether or not s2 differs from
s1. -/
theorem setUnbondingSigs_transitions (s : StoreState) (hsh : Nat)
    (sigs1 sigs2 : List PubKeySigPair) :
    (∀ k ptx, alookup s.txIndexBucket hsh = some k →
      alookup s.txBucket k = some ptx →
      ptx.unbondingTxData = none →
      SetTxUnbondingSignaturesReceived s hsh sigs1 = .error .unbondingDataNotFound) ∧
    (∀ k ptx ud, alookup s.txIndexBucket hsh = some k →
      alookup s.txBucket k = some ptx →
      ptx.unbondingTxData = some ud →
      ud.covenantSignatures = [] →
      sigs1 ≠ [] →
      ∃ s1, SetTxUnbondingSignaturesReceived s hsh sigs1 = .ok s1 ∧
        SetTxUnbondingSignaturesReceived s1 hsh sigs2 =
          .error .invalidUnbondingDataUpdate) := by
  constructor
  · intro k ptx hk hb hud
    simp [SetTxUnbondingSignaturesReceived, setUnbondingSignaturesReceivedFn,
      setTxState, getTxByHash, hk, hb, hud]
  · intro k ptx ud hk hb hud hempty hne
    have hlen : ¬ ud.covenantSignatures.length > 0 := by simp [hempty]
    let ud1 : ProtoUnbondingTxData :=
      { ud with covenantSignatures := covenantSigsToProto sigs1 }
    let ptx1 : ProtoTrackedTransaction := { ptx with unbondingTxData := some ud1 }
    refine ⟨{ s with txBucket := aput s.txBucket k ptx1 }, ?_, ?_⟩
    · simp [SetTxUnbondingSignaturesReceived, setUnbondingSignaturesReceivedFn,
        setTxState, getTxByHash, hk, hb, hud, hlen]
    · have hlen1 : (covenantSigsToProto sigs1).length > 0 := by
        simp [covenantSigsToProto]
        exact List.length_pos.mpr hne
      simp [SetTxUnbondingSignaturesReceived, setUnbondingSignaturesReceivedFn,
        setTxState, getTxByHash, hk, hb, hud, hlen, alookup_aput_self, hlen1]

/-- Witness for C4 (amended) on the concrete store `exStoreC4`. -/
theorem setUnbondingSigs_transitions_witness :
    ∃ s1, SetTxUnbondingSignaturesReceived exStoreC4 21
            [{ signature := 7, pubKey := 8 }] = .ok s1 ∧
      SetTxUnbondingSignaturesReceived s1 21 [{ signature := 9, pubKey := 10 }] =
        .error .invalidUnbondingDataUpdate := by
  refine (setUnbondingSigs_transitions exStoreC4 21
      [{ signature := 7, pubKey := 8 }] [{ signature := 9, pubKey := 10 }]).2
    1 _ _ rfl rfl rfl rfl (by decide)

/-! ### Claim C9: the unbonding pair at insert time -/

/-- Counterexample to C9 as stated: invoking the insert with the unbonding
transaction omitted (nil) fails — `newInitialUnbondingTxData` rejects a nil
unbonding tx — instead of succeeding with `unbondingData` absent. -/
theorem insert_nil_unbonding_counterexample :
    AddTransactionSentToBabylon emptyStore { txIns := [], txHashVal := 31 }
        0 10 "addr" none 20 "del" = .error .nilUnbondingTx := rfl

/-- C9 (amended): the insert requires the (unbondingTx, unbondingTime) pair:
with the unbonding transaction omitted (nil) it fails for every argument
combination; with the pair provided and the staking hash fresh it succeeds,
assigns the next sequential index, advances the counter, and creates a
record whose `unbondingData` is PRESENT, initialized with the pair, empty
covenant signatures and no unbonding confirmation. -/
theorem insert_requires_unbonding_pair (s : StoreState) (btcTx : MsgTx)
    (soi : Nat) (st : Fin 65536) (addr : String) (utx : MsgTx)
    (ut : Fin 65536) (bdh : String) :
    AddTransactionSentToBabylon s btcTx soi st addr none ut bdh =
      .error .nilUnbondingTx ∧
    (alookup s.txIndexBucket btcTx.txHashVal = none →
      ∃ s1 ptx,
        AddTransactionSentToBabylon s btcTx soi st addr (some utx) ut bdh = .ok s1 ∧
        alookup s1.txBucket (nextTxKey s) = some ptx ∧
        ptx.trackedTransactionIdx = nextTxKey s ∧
        ptx.unbondingTxData = some
          { unbondingTransaction := utx
            unbondingTime := ut.val
            covenantSignatures := []
            unbondingTxBtcConfirmationInfo := none } ∧
        s1.numTx = some (nextTxKey s + 1)) := by
  constructor
  · simp [AddTransactionSentToBabylon, newInitialUnbondingTxData]
  · intro hfresh
    let update : ProtoUnbondingTxData :=
      { unbondingTransaction := utx
        unbondingTime := ut.val
        covenantSignatures := []
        unbondingTxBtcConfirmationInfo := none }
    let msg : ProtoTrackedTransaction :=
      { trackedTransactionIdx := 0
        stakingTransaction := btcTx
        stakingOutputIdx := soi
        stakerAddress := addr
        stakingTime := st.val
        stakingTxBtcConfirmationInfo := none
        unbondingTxData := some update
        babylonBTCDelegationTxHash := bdh }
    refine ⟨saveTrackedTransaction s btcTx.txHashVal msg (some (getInputData btcTx)),
      { msg with trackedTransactionIdx := nextTxKey s }, ?_, ?_, rfl, rfl, rfl⟩
    · simp [AddTransactionSentToBabylon, newInitialUnbondingTxData,
        addTransactionInternal, hfresh]
    · simp [saveTrackedTransaction, alookup_aput_self]

/-- Witness for C9 (amended) at a concrete insert into the empty store. -/
theorem insert_requires_unbonding_pair_witness :
    AddTransactionSentToBabylon emptyStore { txIns := [], txHashVal := 41 }
        0 10 "addr" none 20 "del" = .error .nilUnbondingTx ∧
    (∃ s1 ptx,
      AddTransactionSentToBabylon emptyStore { txIns := [], txHashVal := 41 }
          0 10 "addr" (some { txIns := [], txHashVal := 42 }) 20 "del" = .ok s1 ∧
      alookup s1.txBucket (nextTxKey emptyStore) = some ptx ∧
      ptx.trackedTransactionIdx = nextTxKey emptyStore ∧
      ptx.unbondingTxData = some
        { unbondingTransaction := { txIns := [], txHashVal := 42 }
          unbondingTime := 20
          covenantSignatures := []
          unbondingTxBtcConfirmationInfo := none } ∧
      s1.numTx = some (nextTxKey emptyStore + 1)) := by
  have h := insert_requires_unbonding_pair emptyStore { txIns := [], txHashVal := 41 }
    0 10 "addr" { txIns := [], txHashVal := 42 } 20 "del"
  exact ⟨h.1, h.2 rfl⟩

/-! ### Claim C10: transitions touch only the target primary record -/

/-- Frame property of the shared read-modify-write (`setTxState`): the hash
index with its counter and the outpoint index are untouched, and every
primary record except the one the hash maps to is untouched, whether the
call succeeds or aborts. -/
theorem setTxState_frame (s : StoreState) (hsh : Nat)
    (f : ProtoTrackedTransaction → Except StoreError ProtoTrackedTransaction) :
    (effectiveState s (setTxState s hsh f)).txIndexBucket = s.txIndexBucket ∧
    (effectiveState s (setTxState s hsh f)).numTx = s.numTx ∧
    (effectiveState s (setTxState s hsh f)).inputsBucket = s.inputsBucket ∧
    ∀ k, alookup s.txIndexBucket hsh ≠ some k →
      alookup (effectiveState s (setTxState s hsh f)).txBucket k =
        alookup s.txBucket k := by
  cases hidx : alookup s.txIndexBucket hsh with
  | none =>
    simp [setTxState, getTxByHash, hidx, effectiveState]
  | some k0 =>
    cases hb : alookup s.txBucket k0 with
    | none =>
      simp [setTxState, getTxByHash, hidx, hb, effectiveState]
    | some ptx =>
      cases hf : f ptx with
      | error e =>
        simp [setTxState, getTxByHash, hidx, hb, hf, effectiveState]
      | ok ptx1 =>
        have heff : effectiveState s (setTxState s hsh f) =
            { s with txBucket := aput s.txBucket k0 ptx1 } := by
          simp [setTxState, getTxByHash, hidx, hb, hf, effectiveState]
        rw [heff]
        refine ⟨rfl, rfl, rfl, ?_⟩
        intro k hk
        have hne : k ≠ k0 := fun h => hk (by rw [h])
        exact alookup_aput_ne _ _ _ _ hne

/-- C10: every one of the four state-transition operations applied at a
transaction hash — whether it succeeds or fails — may change only the
primary record stored at the index key that hash maps to: every other
primary record, the entire hash index including the next-index counter, and
the outpoint index are identical before and after the call. -/
theorem transitions_frame (s : StoreState) (hsh : Nat) (top : TransitionOp) :
    (effectiveState s (applyTransition s hsh top)).txIndexBucket = s.txIndexBucket ∧
    (effectiveState s (applyTransition s hsh top)).numTx = s.numTx ∧
    (effectiveState s (applyTransition s hsh top)).inputsBucket = s.inputsBucket ∧
    ∀ k, alookup s.txIndexBucket hsh ≠ some k →
      alookup (effectiveState s (applyTransition s hsh top)).txBucket k =
        alookup s.txBucket k := by
  cases top with
  | txConfirmed bh h => exact setTxState_frame s hsh (setTxConfirmedFn bh h)
  | delegationActive bh h => exact setTxState_frame s hsh (setDelegationActiveFn bh h)
  | unbondingSignatures sigs =>
    exact setTxState_frame s hsh (setUnbondingSignaturesReceivedFn sigs)
  | unbondingConfirmed bh h => exact setTxState_frame s hsh (setUnbondingConfirmedFn bh h)

/-- Witness for C10: a successful `SetTxConfirmed` on the one-record store
leaves the other buckets and the record at key 2 untouched. -/
theorem transitions_frame_witness :
    (effectiveState exStoreC4
        (applyTransition exStoreC4 21 (.txConfirmed 7 100))).txIndexBucket =
      exStoreC4.txIndexBucket ∧
    (effectiveState exStoreC4
        (applyTransition exStoreC4 21 (.txConfirmed 7 100))).numTx = exStoreC4.numTx ∧
    (effectiveState exStoreC4
        (applyTransition exStoreC4 21 (.txConfirmed 7 100))).inputsBucket =
      exStoreC4.inputsBucket ∧
    alookup (effectiveState exStoreC4
        (applyTransition exStoreC4 21 (.txConfirmed 7 100))).txBucket 2 =
      alookup exStoreC4.txBucket 2 := by
  have h := transitions_frame exStoreC4 21 (.txConfirmed 7 100)
  exact ⟨h.1, h.2.1, h.2.2.1, h.2.2.2 2 (by decide)⟩

/-! ### Claim C2: sequential inserts assign the contiguous index range -/

theorem alookup_eq_none_of_not_mem {κ υ : Type} [DecidableEq κ]
    (l : List (κ × υ)) (k : κ) (h : k ∉ l.map Prod.fst) : alookup l k = none := by
  induction l with
  | nil => rfl
  | cons p rest ih =>
    simp only [List.map_cons, List.mem_cons] at h
    push_neg at h
    simp [alookup, h.1, ih h.2]

theorem scanBucket_concat (b : List (Nat × ProtoTrackedTransaction))
    (e : Nat × ProtoTrackedTransaction) (l : List StoredTransaction)
    (t : StoredTransaction) (hb : scanBucket b = .ok l)
    (he : protoTxToStoredTransaction e.2 = .ok t) :
    scanBucket (b ++ [e]) = .ok (l ++ [t]) := by
  induction b generalizing l with
  | nil =>
    simp only [scanBucket] at hb
    cases hb
    simp [scanBucket, he]
  | cons p rest ih =>
    simp only [scanBucket] at hb
    cases hp : protoTxToStoredTransaction p.2 with
    | error e2 => rw [hp] at hb; simp at hb
    | ok t2 =>
      rw [hp] at hb
      simp only [except_bind_ok] at hb
      cases hr : scanBucket rest with
      | error e2 => rw [hr] at hb; simp at hb
      | ok l2 =>
        rw [hr] at hb
        simp only [except_bind_ok, Except.ok.injEq] at hb
        subst hb
        show scanBucket (p :: (rest ++ [e])) = _
        simp only [scanBucket, hp, except_bind_ok, ih l2 hr]
        rfl

/-- The inductive shape of a store reached by `n` successful inserts from the
empty store: primary keys are exactly `{1..n}` in order, the counter key is
absent only before the first insert and then holds `n + 1`, every record
carries its own key as its assigned index, and a full scan decodes `n`
records. -/
def StoreInv (s : StoreState) (n : Nat) : Prop :=
  s.txBucket.map Prod.fst = List.range' 1 n ∧
  s.numTx = (if n = 0 then none else some (n + 1)) ∧
  (∀ p ∈ s.txBucket, p.2.trackedTransactionIdx = p.1) ∧
  (∃ l, scanBucket s.txBucket = .ok l ∧ l.length = n)

theorem StoreInv_empty : StoreInv emptyStore 0 :=
  ⟨rfl, rfl, by simp [emptyStore], ⟨[], rfl, rfl⟩⟩

theorem nextTxKey_of_inv (s : StoreState) (n : Nat) (h : StoreInv s n) :
    nextTxKey s = n + 1 := by
  by_cases hn : n = 0 <;> simp [nextTxKey, h.2.1, hn]

theorem applyInsert_inv (s : StoreState) (n : Nat) (r : InsertReq) (s1 : StoreState)
    (hin : StoreInv s n) (h : applyInsert s r = .ok s1) : StoreInv s1 (n + 1) := by
  unfold applyInsert AddTransactionSentToBabylon at h
  cases hu : r.unbondingTx with
  | none => rw [hu] at h; simp [newInitialUnbondingTxData] at h
  | some utx =>
    rw [hu] at h
    simp only [newInitialUnbondingTxData, except_bind_ok] at h
    unfold addTransactionInternal at h
    cases hidx : alookup s.txIndexBucket r.btcTx.txHashVal with
    | some k2 => rw [hidx] at h; simp at h
    | none =>
      rw [hidx] at h
      simp only [Except.ok.injEq] at h
      have hk : nextTxKey s = n + 1 := nextTxKey_of_inv s n hin
      have hfresh : alookup s.txBucket (nextTxKey s) = none := by
        apply alookup_eq_none_of_not_mem
        rw [hin.1, hk]
        intro hmem
        have := List.mem_range'_1.mp hmem
        omega
      rw [← h]
      simp only [saveTrackedTransaction]
      rw [aput_of_lookup_none _ _ _ hfresh]
      refine ⟨?_, ?_, ?_, ?_⟩
      · rw [List.map_append, hin.1, hk]
        have hrc : List.range' 1 (n + 1) = List.range' 1 n ++ [1 + 1 * n] :=
          List.range'_concat 1 n
        simp only [Nat.one_mul] at hrc
        simp [hrc, Nat.add_comm 1 n]
      · simp [hk]
      · intro p hp
        rcases List.mem_append.mp hp with hold | hnew
        · exact hin.2.2.1 p hold
        · simp only [List.mem_singleton] at hnew
          subst hnew
          rfl
      · obtain ⟨l, hl, hlen⟩ := hin.2.2.2
        refine ⟨l ++ [{ storedTransactionIdx := nextTxKey s
                        stakingTx := r.btcTx
                        stakingOutputIndex := r.stakingOutputIndex
                        stakingTxConfirmationInfo := none
                        stakingTime := r.stakingTime
                        stakerAddress := r.stakerAddress
                        unbondingTxData := some
                          { unbondingTx := utx
                            unbondingTime := r.unbondingTime
                            covenantSignatures := []
                            unbondingTxConfirmationInfo := none }
                        babylonBTCDelegationTxHash := r.btcDelTxHash }], ?_, by simp [hlen]⟩
        apply scanBucket_concat _ _ _ _ hl
        have hdec := protoTx_roundTrip
          { storedTransactionIdx := nextTxKey s
            stakingTx := r.btcTx
            stakingOutputIndex := r.stakingOutputIndex
            stakingTxConfirmationInfo := none
            stakingTime := r.stakingTime
            stakerAddress := r.stakerAddress
            unbondingTxData := some
              { unbondingTx := utx
                unbondingTime := r.unbondingTime
                covenantSignatures := []
                unbondingTxConfirmationInfo := none }
            babylonBTCDelegationTxHash := r.btcDelTxHash }
        simpa [storedTransactionToProto, unbondingStoreDataToProto,
          btcConfirmationInfoToProto, covenantSigsToProto] using hdec

theorem insertMany_inv (reqs : List InsertReq) (s0 : StoreState) (n : Nat)
    (s : StoreState) (h : insertMany s0 reqs = .ok s) (hin : StoreInv s0 n) :
    StoreInv s (n + reqs.length) := by
  induction reqs generalizing s0 n with
  | nil =>
    simp only [insertMany, Except.ok.injEq] at h
    subst h
    simpa using hin
  | cons r rest ih =>
    simp only [insertMany] at h
    cases ha : applyInsert s0 r with
    | error e => rw [ha] at h; simp at h
    | ok s1 =>
      rw [ha] at h
      simp only [except_bind_ok] at h
      have hinv1 := applyInsert_inv s0 n r s1 hin ha
      have := ih s1 (n + 1) h hinv1
      simpa [Nat.add_comm, Nat.add_assoc, Nat.add_left_comm] using this

/-- C2: starting from the empty store, after `N` sequential successful
inserts the assigned indices (both the primary keys and the index field
stored in each record) are exactly `{1, ..., N}` in order with no duplicates
or gaps, the next-index counter holds `N + 1` (the counter key exists as soon
as `N > 0`), and a full scan visits exactly `N` records. -/
theorem insertMany_contiguous_indices (reqs : List InsertReq) (s : StoreState)
    (h : insertMany emptyStore reqs = .ok s) :
    s.txBucket.map Prod.fst = List.range' 1 reqs.length ∧
    (∀ p ∈ s.txBucket, p.2.trackedTransactionIdx = p.1) ∧
    nextTxKey s = reqs.length + 1 ∧
    (0 < reqs.length → s.numTx = some (reqs.length + 1)) ∧
    (∃ l, ScanTrackedTransactions s = .ok l ∧ l.length = reqs.length) := by
  have hinv := insertMany_inv reqs emptyStore 0 s h StoreInv_empty
  simp only [Nat.zero_add] at hinv
  refine ⟨hinv.1, hinv.2.2.1, nextTxKey_of_inv s reqs.length hinv, ?_, ?_⟩
  · intro hpos
    rw [hinv.2.1, if_neg (Nat.pos_iff_ne_zero.mp hpos)]
  · exact hinv.2.2.2

/-- A concrete insert request consuming outpoint (500, 0), hash 11. -/
def exReqA : InsertReq :=
  { btcTx := { txIns := [{ previousOutPoint := { hash := 500, index := 0 } }], txHashVal := 11 }
    stakingOutputIndex := 0
    stakingTime := 10
    stakerAddress := "addr1"
    unbondingTx := some { txIns := [], txHashVal := 1001 }
    unbondingTime := 20
    btcDelTxHash := "del1" }

/-- A concrete insert request consuming outpoint (500, 1), hash 12. -/
def exReqB : InsertReq :=
  { btcTx := { txIns := [{ previousOutPoint := { hash := 500, index := 1 } }], txHashVal := 12 }
    stakingOutputIndex := 1
    stakingTime := 11
    stakerAddress := "addr2"
    unbondingTx := some { txIns := [], txHashVal := 1002 }
    unbondingTime := 21
    btcDelTxHash := "del2" }

/-- Two distinct insert requests used as concrete witnesses. -/
def exReqsC2 : List InsertReq := [exReqA, exReqB]

/-- The store after running `exReqsC2` from the empty store. -/
def exStoreC2 : StoreState :=
  effectiveState emptyStore (insertMany emptyStore exReqsC2)

/-- Witness for C2 at the concrete two-insert run. -/
theorem insertMany_contiguous_indices_witness :
    exStoreC2.txBucket.map Prod.fst = List.range' 1 2 ∧
    (∀ p ∈ exStoreC2.txBucket, p.2.trackedTransactionIdx = p.1) ∧
    nextTxKey exStoreC2 = 3 ∧
    (0 < 2 → exStoreC2.numTx = some 3) ∧
    (∃ l, ScanTrackedTransactions exStoreC2 = .ok l ∧ l.length = 2) := by
  have h := insertMany_contiguous_indices exReqsC2 exStoreC2 rfl
  exact ⟨h.1, h.2.1, h.2.2.1, fun _ => h.2.2.2.1 (by decide), h.2.2.2.2⟩

/-! ### Claim C7: the outpoint index -/

/-- A successful `setTxState` touches only the primary bucket. -/
theorem setTxState_ok_other_buckets (s : StoreState) (hsh : Nat)
    (f : ProtoTrackedTransaction → Except StoreError ProtoTrackedTransaction)
    (s1 : StoreState) (h : setTxState s hsh f = .ok s1) :
    s1.inputsBucket = s.inputsBucket ∧ s1.txIndexBucket = s.txIndexBucket ∧
    s1.numTx = s.numTx := by
  have hf := setTxState_frame s hsh f
  rw [show effectiveState s (setTxState s hsh f) = s1 by simp [h, effectiveState]] at hf
  exact ⟨hf.2.2.1, hf.1, hf.2.1⟩

/-- A successful insert marks exactly the inserted transaction's previous
outpoints as used, on top of whatever was already marked. -/
theorem applyInsert_outpoint_char (s : StoreState) (r : InsertReq) (s1 : StoreState)
    (h : applyInsert s r = .ok s1) (op : OutPoint) :
    OutpointUsed s1 op =
      (OutpointUsed s op ||
        decide (op ∈ r.btcTx.txIns.map (fun i => i.previousOutPoint))) := by
  unfold applyInsert AddTransactionSentToBabylon at h
  cases hu : r.unbondingTx with
  | none => rw [hu] at h; simp [newInitialUnbondingTxData] at h
  | some utx =>
    rw [hu] at h
    simp only [newInitialUnbondingTxData, except_bind_ok] at h
    unfold addTransactionInternal at h
    cases hidx : alookup s.txIndexBucket r.btcTx.txHashVal with
    | some k2 => rw [hidx] at h; simp at h
    | none =>
      rw [hidx] at h
      simp only [Except.ok.injEq] at h
      rw [← h]
      simp only [saveTrackedTransaction, OutpointUsed, getInputData]
      exact alookup_foldl_aput_isSome _ _ _ _

/-- C7: an outpoint is marked used exactly when some previously inserted
tracked transaction consumed it: it turns used by the insert whose
transaction spends it, it stays used through every subsequent mutating
operation (there is no removal path), and over any run of successful inserts
from the empty store it is used iff some inserted request's transaction has
it among its previous outpoints. -/
theorem outpointUsed_spec :
    (∀ (s : StoreState) (r : InsertReq) (s1 : StoreState) (op : OutPoint),
      applyInsert s r = .ok s1 →
      op ∈ r.btcTx.txIns.map (fun i => i.previousOutPoint) →
      OutpointUsed s1 op = true) ∧
    (∀ (s : StoreState) (o : StoreOp) (s1 : StoreState) (op : OutPoint),
      applyOp s o = .ok s1 → OutpointUsed s op = true →
      OutpointUsed s1 op = true) ∧
    (∀ (reqs : List InsertReq) (s : StoreState) (op : OutPoint),
      insertMany emptyStore reqs = .ok s →
      (OutpointUsed s op = true ↔
        ∃ r ∈ reqs, op ∈ r.btcTx.txIns.map (fun i => i.previousOutPoint))) := by
  have hchar : ∀ (reqs : List InsertReq) (s0 s : StoreState) (op : OutPoint),
      insertMany s0 reqs = .ok s →
      OutpointUsed s op =
        (OutpointUsed s0 op ||
          decide (∃ r ∈ reqs, op ∈ r.btcTx.txIns.map (fun i => i.previousOutPoint))) := by
    intro reqs
    induction reqs with
    | nil =>
      intro s0 s op h
      simp only [insertMany, Except.ok.injEq] at h
      subst h
      simp
    | cons r rest ih =>
      intro s0 s op h
      simp only [insertMany] at h
      cases ha : applyInsert s0 r with
      | error e => rw [ha] at h; simp at h
      | ok s1 =>
        rw [ha] at h
        simp only [except_bind_ok] at h
        rw [ih s1 s op h, applyInsert_outpoint_char s0 r s1 ha op]
        simp [List.exists_mem_cons_iff, Bool.decide_or, Bool.or_assoc]
  refine ⟨?_, ?_, ?_⟩
  · intro s r s1 op h hmem
    rw [applyInsert_outpoint_char s r s1 h op]
    simp [hmem]
  · intro s o s1 op h hused
    cases o with
    | insert r =>
      rw [applyInsert_outpoint_char s r s1 h op, hused]
      rfl
    | transition hsh t =>
      have hinp : s1.inputsBucket = s.inputsBucket := by
        cases t with
        | txConfirmed bh hh =>
          exact (setTxState_ok_other_buckets s hsh (setTxConfirmedFn bh hh) s1 h).1
        | delegationActive bh hh =>
          exact (setTxState_ok_other_buckets s hsh (setDelegationActiveFn bh hh) s1 h).1
        | unbondingSignatures sigs =>
          exact (setTxState_ok_other_buckets s hsh
            (setUnbondingSignaturesReceivedFn sigs) s1 h).1
        | unbondingConfirmed bh hh =>
          exact (setTxState_ok_other_buckets s hsh (setUnbondingConfirmedFn bh hh) s1 h).1
      rw [OutpointUsed, hinp]
      exact hused
  · intro reqs s op h
    rw [hchar reqs emptyStore s op h]
    simp [OutpointUsed, emptyStore, alookup]

/-- Witness for C7: outpoint (500, 0) is used in the two-insert store, it
survives a subsequent transition, and the iff holds concretely. -/
theorem outpointUsed_spec_witness :
    OutpointUsed exStoreC2 { hash := 500, index := 0 } = true := by
  exact (outpointUsed_spec.2.2 exReqsC2 exStoreC2 { hash := 500, index := 0 } rfl).mpr
    ⟨exReqA, by decide, by decide⟩

/-! ### Claim C6: pagination pages and reversed scan order -/

/-- Decoding preserves the assigned index field. -/
theorem protoTx_decode_idx (ptx : ProtoTrackedTransaction) (t : StoredTransaction)
    (h : protoTxToStoredTransaction ptx = .ok t) :
    t.storedTransactionIdx = ptx.trackedTransactionIdx := by
  obtain ⟨idx, stx, soi, addr, st, sci, udo, bdh⟩ := ptx
  by_cases hst : st > 65535
  · cases udo with
    | none =>
      cases sci <;>
        simp [protoTxToStoredTransaction,
          protoBtcConfirmationInfoToBtcConfirmationInfo, hst] at h
    | some ud =>
      cases hdec : protoUnbondingDataToUnbondingStoreData ud with
      | error e =>
        cases sci <;>
          simp [protoTxToStoredTransaction,
            protoBtcConfirmationInfoToBtcConfirmationInfo, hdec, hst] at h
      | ok u =>
        cases sci <;>
          simp [protoTxToStoredTransaction,
            protoBtcConfirmationInfoToBtcConfirmationInfo, hdec, hst] at h
  · cases udo with
    | none =>
      cases sci <;>
        simp only [protoTxToStoredTransaction,
          protoBtcConfirmationInfoToBtcConfirmationInfo, except_pure, except_bind_ok,
          dif_neg hst, Except.ok.injEq] at h <;>
        subst h <;> rfl
    | some ud =>
      cases hdec : protoUnbondingDataToUnbondingStoreData ud with
      | error e =>
        cases sci <;>
          simp [protoTxToStoredTransaction,
            protoBtcConfirmationInfoToBtcConfirmationInfo, hdec, hst] at h
      | ok u =>
        cases sci <;>
          simp only [protoTxToStoredTransaction,
            protoBtcConfirmationInfoToBtcConfirmationInfo, hdec, except_pure,
            except_bind_ok, dif_neg hst, Except.ok.injEq] at h <;>
          subst h <;> rfl

/-- When the query accumulator accepts a record, the accepted value is the
decoded record. -/
theorem accumulate_some_decode (filter : Option Nat) (ptx : ProtoTrackedTransaction)
    (b : StoredTransaction) (h : accumulateTransactions filter ptx = .ok (some b)) :
    protoTxToStoredTransaction ptx = .ok b := by
  unfold accumulateTransactions at h
  cases hdec : protoTxToStoredTransaction ptx with
  | error e => rw [hdec] at h; simp at h
  | ok t =>
    rw [hdec] at h
    simp only [except_bind_ok] at h
    cases filter with
    | none =>
      simp only [Except.ok.injEq, Option.some.injEq] at h
      rw [h]
    | some best =>
      by_cases he : withdrawableEligible t best
      · simp only [he, if_true, Except.ok.injEq, Option.some.injEq] at h
        rw [h]
      · simp [he] at h

/-- The image of an accepted page is a sublist of the image of the scanned
sequence, whenever accepted values map like their sources. -/
theorem collectPage_map_sublist {α β : Type} (g : β → Nat) (hf : α → Nat) :
    ∀ (xs : List α) (limit : Nat) (f : α → Except StoreError (Option β)) (bs : List β),
      collectPage xs limit f = .ok bs →
      (∀ b x, f x = .ok (some b) → g b = hf x) →
      List.Sublist (bs.map g) (xs.map hf) := by
  intro xs
  induction xs with
  | nil =>
    intro limit f bs h hprop
    cases limit with
    | zero =>
      simp only [collectPage, Except.ok.injEq] at h
      subst h
      simp
    | succ l =>
      simp only [collectPage, Except.ok.injEq] at h
      subst h
      simp
  | cons x rest ih =>
    intro limit f bs h hprop
    cases limit with
    | zero =>
      simp only [collectPage, Except.ok.injEq] at h
      subst h
      simp
    | succ l =>
      simp only [collectPage] at h
      cases hfx : f x with
      | error e => rw [hfx] at h; simp at h
      | ok ob =>
        rw [hfx] at h
        simp only [except_bind_ok] at h
        cases ob with
        | none =>
          have hs := ih (l + 1) f bs h hprop
          rw [List.map_cons]
          exact hs.cons (hf x)
        | some b =>
          cases hrest : collectPage rest l f with
          | error e => rw [hrest] at h; simp at h
          | ok bs2 =>
            rw [hrest] at h
            simp only [except_bind_ok, Except.ok.injEq] at h
            subst h
            have hgb := hprop b x hfx
            have hs := ih l f bs2 hrest hprop
            rw [List.map_cons, List.map_cons, hgb]
            exact hs.cons₂ (hf x)

/-- A third concrete insert request, hash 13. -/
def exReqC : InsertReq :=
  { btcTx := { txIns := [], txHashVal := 13 }
    stakingOutputIndex := 0
    stakingTime := 12
    stakerAddress := "addr3"
    unbondingTx := some { txIns := [], txHashVal := 1003 }
    unbondingTime := 22
    btcDelTxHash := "del3" }

/-- A fourth concrete insert request, hash 14. -/
def exReqD : InsertReq :=
  { btcTx := { txIns := [], txHashVal := 14 }
    stakingOutputIndex := 0
    stakingTime := 13
    stakerAddress := "addr4"
    unbondingTx := some { txIns := [], txHashVal := 1004 }
    unbondingTime := 23
    btcDelTxHash := "del4" }

/-- The store holding four records, from four sequential inserts. -/
def exStore4 : StoreState :=
  effectiveState emptyStore (insertMany emptyStore [exReqA, exReqB, exReqC, exReqD])

/-- C6: on the four-record store, forward queries with (offset 0, limit 2)
and (offset 2, limit 2) return the ascending pages of indices {1, 2} and
{3, 4} with total 4; and on every store whose primary bucket is in strictly
ascending key order with each record carrying its key as its index, every
reversed query returns its page in strictly ascending index order despite
the backward scan. -/
theorem query_pages_and_reversed_order :
    ((QueryStoredTransactions exStore4
        { indexOffset := 0, numMaxTransactions := 2, reversed := false,
          withdrawableTransactionsFilter := none }).map
      (fun r => (r.transactions.map (fun t => t.storedTransactionIdx), r.total)) =
        .ok ([1, 2], 4)) ∧
    ((QueryStoredTransactions exStore4
        { indexOffset := 2, numMaxTransactions := 2, reversed := false,
          withdrawableTransactionsFilter := none }).map
      (fun r => (r.transactions.map (fun t => t.storedTransactionIdx), r.total)) =
        .ok ([3, 4], 4)) ∧
    (∀ (s : StoreState) (q : StoredTransactionQuery) (r : StoredTransactionQueryResult),
      q.reversed = true →
      List.Pairwise (· < ·) (s.txBucket.map Prod.fst) →
      (∀ p ∈ s.txBucket, p.2.trackedTransactionIdx = p.1) →
      QueryStoredTransactions s q = .ok r →
      List.Pairwise (· < ·) (r.transactions.map (fun t => t.storedTransactionIdx))) := by
  refine ⟨rfl, rfl, ?_⟩
  intro s q r hrev hsort hidx hq
  unfold QueryStoredTransactions at hq
  by_cases h0 : getNumTx s = 0
  · simp only [h0, if_true, Except.ok.injEq] at hq
    subst hq
    simp
  · simp only [h0, if_false] at hq
    cases hc : collectPage (paginatorSeq (s.txBucket.map Prod.snd) q.reversed q.indexOffset)
        q.numMaxTransactions (accumulateTransactions q.withdrawableTransactionsFilter) with
    | error e => rw [hc] at hq; simp at hq
    | ok txs =>
      rw [hc] at hq
      simp only [except_bind_ok, Except.ok.injEq] at hq
      subst hq
      have hsub := collectPage_map_sublist (fun t => t.storedTransactionIdx)
        (fun x => x.trackedTransactionIdx) _ _ _ _ hc
        (fun b x hacc => protoTx_decode_idx x b (accumulate_some_decode _ x b hacc))
      have hseq : (paginatorSeq (s.txBucket.map Prod.snd) q.reversed q.indexOffset).map
          (fun x => x.trackedTransactionIdx) =
          ((s.txBucket.map Prod.fst).reverse).drop q.indexOffset := by
        rw [paginatorSeq, hrev, if_pos rfl, List.map_drop, List.map_reverse,
          List.map_map]
        congr 1
        congr 1
        exact List.map_congr_left hidx
      rw [hseq] at hsub
      have hrevSorted : List.Pairwise (fun a b => a > b)
          (((s.txBucket.map Prod.fst).reverse).drop q.indexOffset) := by
        apply List.Pairwise.sublist (List.drop_sublist _ _)
        exact (List.pairwise_reverse).mpr (by simpa using hsort)
      have htxs : List.Pairwise (fun a b => a > b)
          (txs.map fun t => t.storedTransactionIdx) :=
        hrevSorted.sublist hsub
      simp only [hrev, if_true]
      rw [List.map_reverse]
      exact (List.pairwise_reverse).mpr (by simpa using htxs)

/-- The result of a reversed full query over the four-record store. -/
def exQueryRevResult : StoredTransactionQueryResult :=
  match QueryStoredTransactions exStore4
      { indexOffset := 0, numMaxTransactions := 50, reversed := true,
        withdrawableTransactionsFilter := none } with
  | .ok r => r
  | .error _ => { transactions := [], total := 0 }

/-- Witness for C6: the reversed full query over the four-record store
returns its page in strictly ascending index order. -/
theorem query_pages_and_reversed_order_witness :
    List.Pairwise (· < ·)
      (exQueryRevResult.transactions.map (fun t => t.storedTransactionIdx)) := by
  exact query_pages_and_reversed_order.2.2 exStore4
    { indexOffset := 0, numMaxTransactions := 50, reversed := true,
      withdrawableTransactionsFilter := none }
    exQueryRevResult rfl (by decide) (by decide) rfl

end Stakerdb
